import Mathlib

/-
Formal model of the holdings repository (scripts/scraper.py).

The attribution engine is compare_holdings(today_data, yesterday_data).
Weights and returns are Python floats in the source; the model uses exact
rationals.  Division of a float by 0.0 raises ZeroDivisionError in Python,
so division is modelled as fallible: compare_holdings returns Except Unit,
where error models the uncaught ZeroDivisionError.

Python iterates all_codes = set(today) | set(yesterday) in an unspecified,
hash dependent order; the model takes that iteration order as an explicit
list parameter all_codes.  The final sort (list.sort with a key) is a
stable sort keyed on abs(active_diff) descending; any stable sort agrees
with Timsort on equal inputs, so the model uses insertion sort.
-/

/-- Holding models one scraped record \x7bcode, name, share\x7d. -/
structure Holding where
  code : String
  name : String
  share : ℚ
deriving DecidableEq, Repr

/-- History models the date keyed holdings_history.json mapping. -/
abbrev History := List (String × List Holding)

/-- Model of the dict comprehension \x7bitem[code]: item for item in data\x7d:
for a duplicated code the last occurrence wins. -/
def lookupCode (xs : List Holding) (c : String) : Option Holding :=
  xs.foldl (fun acc h => if h.code = c then some h else acc) none

/-- Share of a code in a snapshot, 0.0 when absent (the .get default). -/
def shareOf (xs : List Holding) (c : String) : ℚ :=
  match lookupCode xs c with
  | some h => h.share
  | none => 0

/-- Name resolution: now[name] if now else old[name].  The source indexes
old[name] unconditionally in the else branch, which presupposes the code
occurs in at least one snapshot; outside the union the model returns "". -/
def nameOf (t y : List Holding) (c : String) : String :=
  match lookupCode t c with
  | some h => h.name
  | none =>
    match lookupCode y c with
    | some h => h.name
    | none => ""

/-- Distinct codes of a snapshot (the keys of its dict). -/
def keysOf (xs : List Holding) : List String :=
  (xs.map (fun h => h.code)).dedup

/-- Portfolio no-trade return: for code, old_item in yesterday_map.items():
portfolio_return += (old_item[share] / 100.0) * stock_returns[code]. -/
def portfolio_return (y : List Holding) (r : String → ℚ) : ℚ :=
  (keysOf y).foldl (fun acc c => acc + shareOf y c / 100 * r c) 0

/-- Expected no-trade share: old_share * (1 + r) / (1 + portfolio_return)
when old_share > 0, else 0.0.  Callers must rule out a zero denominator
before using this (the source raises ZeroDivisionError there). -/
def expected_share (y : List Holding) (r : String → ℚ) (Rp : ℚ) (c : String) : ℚ :=
  if shareOf y c > 0 then shareOf y c * (1 + r c) / (1 + Rp) else 0

/-- ChangeRow models one appended result dict of compare_holdings. -/
structure ChangeRow where
  code : String
  name : String
  now : ℚ
  old : ℚ
  total_diff : ℚ
  active_diff : ℚ
  passive_drift : ℚ
  type : String
deriving DecidableEq, Repr

/-- Classification chain of compare_holdings; none models the continue
that drops a row whose total change is below 0.5. -/
def classify (old_share now_share active_diff total_diff : ℚ) : Option String :=
  if old_share = 0 then some "new"
  else if now_share = 0 then some "sold"
  else if active_diff > 0.15 then some "buy"
  else if active_diff < -0.15 then some "sell"
  else if |total_diff| < 0.5 then none
  else some "drift"

/-- Loop body of compare_holdings for one code: error models the
ZeroDivisionError raised when old_share > 0 and 1 + portfolio_return = 0,
ok none models a continue (noise filter or classification drop), and
ok (some row) models an append. -/
def processCode (t y : List Holding) (r : String → ℚ) (Rp : ℚ) (c : String) :
    Except Unit (Option ChangeRow) :=
  if shareOf y c > 0 ∧ 1 + Rp = 0 then .error ()
  else if |shareOf t c - shareOf y c| < 0.1 ∧
      |shareOf t c - expected_share y r Rp c| < 0.2 then .ok none
  else
    match classify (shareOf y c) (shareOf t c)
        (shareOf t c - expected_share y r Rp c) (shareOf t c - shareOf y c) with
    | none => .ok none
    | some ty =>
      .ok (some ⟨c, nameOf t y c, shareOf t c, shareOf y c,
        shareOf t c - shareOf y c,
        shareOf t c - expected_share y r Rp c,
        (shareOf t c - shareOf y c) - (shareOf t c - expected_share y r Rp c),
        ty⟩)

/-- The for loop over all_codes, appending surviving rows in iteration
order; an error at any code aborts the whole computation, as an uncaught
exception does. -/
def collectChanges (t y : List Holding) (r : String → ℚ) (Rp : ℚ) :
    List String → Except Unit (List ChangeRow)
  | [] => .ok []
  | c :: cs =>
    match processCode t y r Rp c with
    | .error e => .error e
    | .ok none => collectChanges t y r Rp cs
    | .ok (some row) =>
      match collectChanges t y r Rp cs with
      | .error e => .error e
      | .ok rest => .ok (row :: rest)

/-- Sort relation of changes.sort(key=lambda x: abs(x[active_diff]),
reverse=True): a may come before b when abs(b) ≤ abs(a). -/
def keyGe (a b : ChangeRow) : Prop :=
  |b.active_diff| ≤ |a.active_diff|

instance : DecidableRel keyGe := fun a b =>
  inferInstanceAs (Decidable (|b.active_diff| ≤ |a.active_diff|))

instance : IsTotal ChangeRow keyGe :=
  ⟨fun a b => le_total (|b.active_diff|) (|a.active_diff|)⟩

instance : IsTrans ChangeRow keyGe :=
  ⟨fun _ _ _ hab hbc => le_trans hbc hab⟩

/-- Stable descending sort on abs(active_diff), as list.sort performs. -/
def sortByActive (l : List ChangeRow) : List ChangeRow :=
  List.insertionSort keyGe l

/-- Model of compare_holdings: returns the sorted change rows and the
boolean len(changes) > 0. -/
def compare_holdings (all_codes : List String) (t y : List Holding)
    (r : String → ℚ) : Except Unit (List ChangeRow × Bool) :=
  match collectChanges t y r (portfolio_return y r) all_codes with
  | .error e => .error e
  | .ok changes => .ok (sortByActive changes, decide (0 < (sortByActive changes).length))

/-- Model of format_ticker_for_yf.  Python str.zfill sign handling is
omitted: ticker codes carry no sign. -/
def zfill (w : Nat) (s : String) : String :=
  String.mk (List.replicate (w - s.length) '0') ++ s

def format_ticker_for_yf (code : String) : String :=
  let code := code.toUpper.trim
  if code.endsWith ".HK" then
    zfill 4 ((code.splitOn ".").headD "") ++ ".HK"
  else if code.length = 6 ∧ code.all Char.isDigit then
    if code.startsWith "6" then code ++ ".SS" else code ++ ".SZ"
  else code

/-- Model of get_daily_return.  The yfinance Ticker plus history call is
the parameter fetchCloses: error models any exception raised while
fetching (caught by the except clause), ok gives the Close column.  The
body computes (last - prev) / prev from the final two closes; a zero
prev_close raises ZeroDivisionError inside the try, which the except
clause also turns into 0.0. -/
def get_daily_return (fetchCloses : String → Except String (List ℚ))
    (code : String) : ℚ :=
  match fetchCloses (format_ticker_for_yf code) with
  | .error _ => 0
  | .ok closes =>
    match closes.reverse with
    | last_close :: prev_close :: _ =>
      if prev_close = 0 then 0 else (last_close - prev_close) / prev_close
    | _ => 0

/-- Model of load_history.  The file on disk is Option String (none when
os.path.exists is false); parseHistory models json.load, whose parse
failure on corrupt contents is an exception the source does not catch. -/
def load_history (parseHistory : String → Except Unit History)
    (file : Option String) : Except Unit History :=
  match file with
  | some contents => parseHistory contents
  | none => .ok []

/-
Structural lemmas about the engine, shared by the claim theorems below.
-/

/-- Every appended row carries exactly the values computed in the loop
body, its classification tag, and it passed the noise filter. -/
theorem processCode_ok_some {t y : List Holding} {r : String → ℚ} {Rp : ℚ} {c : String}
    {row : ChangeRow} (h : processCode t y r Rp c = .ok (some row)) :
    row.code = c ∧ row.name = nameOf t y c ∧ row.now = shareOf t c ∧ row.old = shareOf y c ∧
    row.total_diff = row.now - row.old ∧
    row.active_diff = row.now - expected_share y r Rp c ∧
    row.passive_drift = row.total_diff - row.active_diff ∧
    classify row.old row.now row.active_diff row.total_diff = some row.type ∧
    ¬(|row.total_diff| < 0.1 ∧ |row.active_diff| < 0.2) := by
  unfold processCode at h
  split at h
  · exact absurd h (by simp)
  · split at h
    · exact absurd h (by simp)
    · rename_i hfilter
      split at h
      · exact absurd h (by simp)
      · rename_i ty hcl
        simp only [Except.ok.injEq, Option.some.injEq] at h
        subst h
        exact ⟨rfl, rfl, rfl, rfl, rfl, rfl, rfl, hcl, hfilter⟩

/-- A run that raises on no code returns the rows of its surviving codes,
and every returned row stems from some code of the iteration list. -/
theorem collectChanges_mem {t y : List Holding} {r : String → ℚ} {Rp : ℚ} :
    ∀ {cs : List String} {l : List ChangeRow},
      collectChanges t y r Rp cs = Except.ok l → ∀ {row : ChangeRow}, row ∈ l →
      ∃ c ∈ cs, processCode t y r Rp c = Except.ok (some row)
  | [], l, h, row, hm => by
    simp only [collectChanges, Except.ok.injEq] at h
    subst h
    simp at hm
  | c :: cs, l, h, row, hm => by
    rw [collectChanges] at h
    cases hp : processCode t y r Rp c with
    | error e => rw [hp] at h; exact absurd h (by simp)
    | ok o =>
      cases o with
      | none =>
        rw [hp] at h
        obtain ⟨c', hc', hpc⟩ := collectChanges_mem h hm
        exact ⟨c', List.mem_cons_of_mem _ hc', hpc⟩
      | some row' =>
        rw [hp] at h
        cases hrest : collectChanges t y r Rp cs with
        | error e => rw [hrest] at h; exact absurd h (by simp)
        | ok rest =>
          rw [hrest] at h
          simp only [Except.ok.injEq] at h
          subst h
          rcases List.mem_cons.mp hm with rfl | hm'
          · exact ⟨c, List.mem_cons_self _ _, hp⟩
          · obtain ⟨c', hc', hpc⟩ := collectChanges_mem hrest hm'
            exact ⟨c', List.mem_cons_of_mem _ hc', hpc⟩

/-- A row produced for a code of the iteration list occurs in the result. -/
theorem collectChanges_mem_of {t y : List Holding} {r : String → ℚ} {Rp : ℚ} :
    ∀ {cs : List String} {l : List ChangeRow} {c : String} {row : ChangeRow},
      c ∈ cs → processCode t y r Rp c = Except.ok (some row) →
      collectChanges t y r Rp cs = Except.ok l → row ∈ l
  | [], _, _, _, hc, _, _ => absurd hc (by simp)
  | c' :: cs, l, c, row, hc, hp, h => by
    rw [collectChanges] at h
    rcases List.mem_cons.mp hc with rfl | hc'
    · rw [hp] at h
      cases hrest : collectChanges t y r Rp cs with
      | error e => rw [hrest] at h; exact absurd h (by simp)
      | ok rest =>
        rw [hrest] at h
        simp only [Except.ok.injEq] at h
        subst h
        exact List.mem_cons_self _ _
    · cases hp' : processCode t y r Rp c' with
      | error e => rw [hp'] at h; exact absurd h (by simp)
      | ok o =>
        cases o with
        | none =>
          rw [hp'] at h
          exact collectChanges_mem_of hc' hp h
        | some row' =>
          rw [hp'] at h
          cases hrest : collectChanges t y r Rp cs with
          | error e => rw [hrest] at h; exact absurd h (by simp)
          | ok rest =>
            rw [hrest] at h
            simp only [Except.ok.injEq] at h
            subst h
            exact List.mem_cons_of_mem _ (collectChanges_mem_of hc' hp hrest)

/-- An uncaught exception at any code of the iteration list aborts the
whole loop. -/
theorem collectChanges_error {t y : List Holding} {r : String → ℚ} {Rp : ℚ} :
    ∀ {cs : List String} {c : String}, c ∈ cs →
      processCode t y r Rp c = Except.error () →
      collectChanges t y r Rp cs = Except.error ()
  | [], _, hc, _ => absurd hc (by simp)
  | c' :: cs, c, hc, hp => by
    rw [collectChanges]
    rcases List.mem_cons.mp hc with rfl | hc'
    · rw [hp]
    · cases hp' : processCode t y r Rp c' with
      | error e => cases e; rfl
      | ok o =>
        cases o with
        | none => exact collectChanges_error hc' hp
        | some row' => rw [collectChanges_error hc' hp]

/-- In a loop that returned normally, no code of the list raised. -/
theorem collectChanges_ok_no_error {t y : List Holding} {r : String → ℚ} {Rp : ℚ}
    {cs : List String} {l : List ChangeRow} {c : String}
    (h : collectChanges t y r Rp cs = Except.ok l) (hc : c ∈ cs) :
    processCode t y r Rp c ≠ Except.error () := by
  intro hp
  rw [collectChanges_error hc hp] at h
  exact absurd h (by simp)

/-- Shape of a normal return of compare_holdings. -/
theorem compare_holdings_eq_ok {all_codes : List String} {t y : List Holding}
    {r : String → ℚ} {res : List ChangeRow × Bool}
    (h : compare_holdings all_codes t y r = Except.ok res) :
    ∃ changes, collectChanges t y r (portfolio_return y r) all_codes = Except.ok changes ∧
      res.1 = sortByActive changes := by
  unfold compare_holdings at h
  cases hc : collectChanges t y r (portfolio_return y r) all_codes with
  | error e => rw [hc] at h; exact absurd h (by simp)
  | ok changes =>
    rw [hc] at h
    simp only [Except.ok.injEq] at h
    exact ⟨changes, rfl, by rw [← h]⟩

/-- Membership in the sorted output agrees with membership before sorting. -/
theorem mem_sortByActive {l : List ChangeRow} {row : ChangeRow} :
    row ∈ sortByActive l ↔ row ∈ l := by
  unfold sortByActive
  exact List.mem_insertionSort keyGe

/-- Every row of a normal run stems from some code of the iteration list. -/
theorem compare_holdings_row {all_codes : List String} {t y : List Holding}
    {r : String → ℚ} {res : List ChangeRow × Bool}
    (h : compare_holdings all_codes t y r = Except.ok res) {row : ChangeRow}
    (hrow : row ∈ res.1) :
    ∃ c ∈ all_codes, processCode t y r (portfolio_return y r) c = Except.ok (some row) := by
  obtain ⟨changes, hc, hres⟩ := compare_holdings_eq_ok h
  rw [hres] at hrow
  exact collectChanges_mem hc (mem_sortByActive.mp hrow)

/-- The classification tag is determined, first match wins, by the chain
of the source; and a surviving row with none of the four explicit tags has
a total change of at least 0.5. -/
theorem classify_eq_of_some {o n a td : ℚ} {s : String}
    (h : classify o n a td = some s) :
    s = (if o = 0 then "new" else if n = 0 then "sold" else if a > 0.15 then "buy"
      else if a < -0.15 then "sell" else "drift") ∧
    (o ≠ 0 → n ≠ 0 → ¬(a > 0.15) → ¬(a < -0.15) → ¬(|td| < 0.5)) := by
  constructor
  · unfold classify at h
    split_ifs at h ⊢ <;> (injection h with h; exact h.symm)
  · intro h1 h2 h3 h4 h5
    rw [classify, if_neg h1, if_neg h2, if_neg h3, if_neg h4, if_pos h5] at h
    exact absurd h (by simp)

/-- Conditions under which the classification chain drops a row. -/
theorem classify_eq_none {o n a td : ℚ} (h1 : o ≠ 0) (h2 : n ≠ 0)
    (h3 : ¬(a > 0.15)) (h4 : ¬(a < -0.15)) (h5 : |td| < 0.5) :
    classify o n a td = none := by
  unfold classify
  simp [h1, h2, h3, h4, h5]

/-- Every tag the chain emits is one of the five reported categories. -/
theorem classify_mem {o n a td : ℚ} {s : String} (h : classify o n a td = some s) :
    s = "new" ∨ s = "sold" ∨ s = "buy" ∨ s = "sell" ∨ s = "drift" := by
  unfold classify at h
  split_ifs at h <;> (injection h with h; subst h; simp)

/-
Claim theorems.
-/

/-- C1: for every result row produced by compare_holdings the fields
satisfy active_diff + passive_drift = total_diff exactly, by construction,
with total_diff = now_weight - old_weight. -/
theorem c1_active_plus_passive_eq_total (all_codes : List String) (t y : List Holding)
    (r : String → ℚ) (res : List ChangeRow × Bool)
    (h : compare_holdings all_codes t y r = Except.ok res) :
    ∀ row ∈ res.1, row.active_diff + row.passive_drift = row.total_diff ∧
      row.total_diff = row.now - row.old := by
  intro row hrow
  obtain ⟨c, _, hpc⟩ := compare_holdings_row h hrow
  obtain ⟨_, _, _, _, ht, _, hp, _, _⟩ := processCode_ok_some hpc
  constructor
  · rw [hp]; ring
  · exact ht

/-- C1 witness: a concrete cold start run producing one row. -/
theorem c1_witness :
    compare_holdings ["A"] [⟨"A", "Apple", 5⟩] [] (fun _ => 0) =
      Except.ok ([⟨"A", "Apple", 5, 0, 5, 5, 0, "new"⟩], true) ∧
    ((5 : ℚ) + 0 = 5 ∧ (5 : ℚ) = 5 - 0) := by
  have hrun : compare_holdings ["A"] [⟨"A", "Apple", 5⟩] [] (fun _ => 0) =
      Except.ok ([⟨"A", "Apple", 5, 0, 5, 5, 0, "new"⟩], true) := by
    simp +decide [compare_holdings, collectChanges, processCode, shareOf, lookupCode,
      expected_share, nameOf, classify, portfolio_return, keysOf]
    all_goals norm_num [sortByActive, List.insertionSort, List.orderedInsert, keyGe,
      abs_of_nonneg, abs_of_nonpos]
  exact ⟨hrun, c1_active_plus_passive_eq_total _ _ _ _ _ hrun
    ⟨"A", "Apple", 5, 0, 5, 5, 0, "new"⟩ (by simp)⟩

/-- C2: every emitted row carries now and old weights read from the two
snapshots, and active_diff = now - expected, where expected is
old * (1 + r) / (1 + R_p) when old > 0 and 0.0 when old = 0, with R_p the
portfolio return over yesterday's codes. -/
theorem c2_active_diff_formula (all_codes : List String) (t y : List Holding)
    (r : String → ℚ) (res : List ChangeRow × Bool)
    (h : compare_holdings all_codes t y r = Except.ok res) :
    ∀ row ∈ res.1,
      row.now = shareOf t row.code ∧ row.old = shareOf y row.code ∧
      row.active_diff = row.now - expected_share y r (portfolio_return y r) row.code ∧
      (row.old > 0 → expected_share y r (portfolio_return y r) row.code =
        row.old * (1 + r row.code) / (1 + portfolio_return y r)) ∧
      (row.old = 0 → expected_share y r (portfolio_return y r) row.code = 0) := by
  intro row hrow
  obtain ⟨c, _, hpc⟩ := compare_holdings_row h hrow
  obtain ⟨hcode, _, hnow, hold, _, ha, _, _, _⟩ := processCode_ok_some hpc
  subst hcode
  refine ⟨hnow, hold, ha, ?_, ?_⟩
  · intro hpos
    rw [expected_share, if_pos (hold ▸ hpos), ← hold]
  · intro hz
    have hs : shareOf y row.code = 0 := by rw [← hold, hz]
    rw [expected_share, hs]
    simp

/-- C2 witness: a run with a genuine return and portfolio rescaling. -/
theorem c2_witness :
    compare_holdings ["A"] [⟨"A", "A", 8⟩] [⟨"A", "A", 4⟩] (fun _ => 1/2) =
      Except.ok ([⟨"A", "A", 8, 4, 4, 36/17, 32/17, "buy"⟩], true) ∧
    ((8 : ℚ) = shareOf [⟨"A", "A", 8⟩] "A" ∧
      (4 : ℚ) = shareOf [⟨"A", "A", 4⟩] "A" ∧
      (36/17 : ℚ) = 8 - expected_share [⟨"A", "A", 4⟩] (fun _ => 1/2)
        (portfolio_return [⟨"A", "A", 4⟩] (fun _ => 1/2)) "A" ∧
      expected_share [⟨"A", "A", 4⟩] (fun _ => 1/2)
          (portfolio_return [⟨"A", "A", 4⟩] (fun _ => 1/2)) "A" =
        4 * (1 + (1/2 : ℚ)) / (1 + portfolio_return [⟨"A", "A", 4⟩] (fun _ => 1/2))) := by
  have hrun : compare_holdings ["A"] [⟨"A", "A", 8⟩] [⟨"A", "A", 4⟩] (fun _ => 1/2) =
      Except.ok ([⟨"A", "A", 8, 4, 4, 36/17, 32/17, "buy"⟩], true) := by
    simp +decide [compare_holdings, collectChanges, processCode, shareOf, lookupCode,
      expected_share, nameOf, classify, portfolio_return, keysOf]
    all_goals norm_num [sortByActive, List.insertionSort, List.orderedInsert, keyGe,
      abs_of_nonneg, abs_of_nonpos]
  have happ := c2_active_diff_formula _ _ _ _ _ hrun
    ⟨"A", "A", 8, 4, 4, 36/17, 32/17, "buy"⟩ (by simp)
  exact ⟨hrun, happ.1, happ.2.1, happ.2.2.1, happ.2.2.2.1 (by norm_num)⟩

/-- C10: the type field of every emitted row is one of the five reported
categories, and the initial placeholder hold never survives to a row. -/
theorem c10_no_hold_emitted (all_codes : List String) (t y : List Holding)
    (r : String → ℚ) (res : List ChangeRow × Bool)
    (h : compare_holdings all_codes t y r = Except.ok res) :
    ∀ row ∈ res.1, (row.type = "new" ∨ row.type = "sold" ∨ row.type = "buy" ∨
      row.type = "sell" ∨ row.type = "drift") ∧ row.type ≠ "hold" := by
  intro row hrow
  obtain ⟨c, _, hpc⟩ := compare_holdings_row h hrow
  obtain ⟨_, _, _, _, _, _, _, hcl, _⟩ := processCode_ok_some hpc
  have hmem := classify_mem hcl
  refine ⟨hmem, ?_⟩
  rcases hmem with h1 | h1 | h1 | h1 | h1 <;> rw [h1] <;> decide

/-- C10 witness: a run that fully closes a position. -/
theorem c10_witness :
    compare_holdings ["C"] [] [⟨"C", "C", 2⟩] (fun _ => 0) =
      Except.ok ([⟨"C", "C", 0, 2, -2, -2, 0, "sold"⟩], true) ∧
    (("sold" = "new" ∨ "sold" = "sold" ∨ "sold" = "buy" ∨ "sold" = "sell" ∨
      "sold" = "drift") ∧ "sold" ≠ "hold") := by
  have hrun : compare_holdings ["C"] [] [⟨"C", "C", 2⟩] (fun _ => 0) =
      Except.ok ([⟨"C", "C", 0, 2, -2, -2, 0, "sold"⟩], true) := by
    simp +decide [compare_holdings, collectChanges, processCode, shareOf, lookupCode,
      expected_share, nameOf, classify, portfolio_return, keysOf]
    all_goals norm_num [sortByActive, List.insertionSort, List.orderedInsert, keyGe,
      abs_of_nonneg, abs_of_nonpos]
  exact ⟨hrun, c10_no_hold_emitted _ _ _ _ _ hrun
    ⟨"C", "C", 0, 2, -2, -2, 0, "sold"⟩ (by simp)⟩

/-- A code is absent from the empty snapshot. -/
theorem shareOf_nil (c : String) : shareOf [] c = 0 := rfl

/-- With no prior position there is nothing to drift. -/
theorem expected_share_nil (r : String → ℚ) (Rp : ℚ) (c : String) :
    expected_share [] r Rp c = 0 := by
  simp [expected_share, shareOf_nil]

/-- C3 counterexample: in a cold start, a security of the today snapshot
whose weight is below the 0.1 noise threshold is dropped, so it does not
appear in the output at all. -/
theorem c3_counterexample :
    compare_holdings ["A"] [⟨"A", "A", 1/20⟩] [] (fun _ => 0) =
      Except.ok ([], false) ∧ shareOf [⟨"A", "A", 1/20⟩] "A" ≠ 0 := by
  constructor
  · simp +decide [compare_holdings, collectChanges, processCode, shareOf, lookupCode,
      expected_share, nameOf, classify, portfolio_return, keysOf]
    all_goals norm_num [sortByActive, List.insertionSort, List.orderedInsert, keyGe,
      abs_of_nonneg, abs_of_nonpos]
  · norm_num [shareOf, lookupCode]

/-- C3 amended: in a cold start every emitted row is a "new" row with
active_diff = total_diff and passive_drift = 0, and every today security
whose weight clears the 0.1 noise threshold does appear in the output. -/
theorem c3_cold_start (all_codes : List String) (t : List Holding)
    (r : String → ℚ) (res : List ChangeRow × Bool)
    (h : compare_holdings all_codes t [] r = Except.ok res) :
    (∀ row ∈ res.1, row.type = "new" ∧ row.active_diff = row.total_diff ∧
      row.passive_drift = 0) ∧
    (∀ hld ∈ t, hld.code ∈ all_codes → 0.1 ≤ |shareOf t hld.code| →
      ∃ row ∈ res.1, row.code = hld.code ∧ row.type = "new") := by
  constructor
  · intro row hrow
    obtain ⟨c, _, hpc⟩ := compare_holdings_row h hrow
    obtain ⟨_, _, _, hold, ht, ha, hp, hcl, _⟩ := processCode_ok_some hpc
    have hold0 : row.old = 0 := by rw [hold, shareOf_nil]
    have hact : row.active_diff = row.total_diff := by
      rw [ha, expected_share_nil, sub_zero, ht, hold0, sub_zero]
    have hpass : row.passive_drift = 0 := by rw [hp, hact, sub_self]
    have htype : row.type = "new" := by
      rw [hold0] at hcl
      unfold classify at hcl
      rw [if_pos rfl] at hcl
      injection hcl with hcl
      exact hcl.symm
    exact ⟨htype, hact, hpass⟩
  · intro hld hmem hcode hge
    have hps : processCode t [] r (portfolio_return [] r) hld.code =
        Except.ok (some ⟨hld.code, nameOf t [] hld.code, shareOf t hld.code, 0,
          shareOf t hld.code, shareOf t hld.code, 0, "new"⟩) := by
      unfold processCode
      simp only [shareOf_nil, expected_share_nil, sub_zero, sub_self,
        lt_self_iff_false, false_and, if_false]
      rw [if_neg (fun hc => absurd hc.1 (not_lt.mpr hge))]
      unfold classify
      rw [if_pos rfl]
    obtain ⟨changes, hcoll, hres⟩ := compare_holdings_eq_ok h
    refine ⟨⟨hld.code, nameOf t [] hld.code, shareOf t hld.code, 0,
      shareOf t hld.code, shareOf t hld.code, 0, "new"⟩, ?_, rfl, rfl⟩
    rw [hres]
    exact mem_sortByActive.mpr (collectChanges_mem_of hcode hps hcoll)

/-- C3 amended witness: a cold start security above the threshold. -/
theorem c3_cold_start_witness :
    compare_holdings ["A"] [⟨"A", "A", 3⟩] [] (fun _ => 0) =
      Except.ok ([⟨"A", "A", 3, 0, 3, 3, 0, "new"⟩], true) ∧
    (0.1 : ℚ) ≤ |shareOf [⟨"A", "A", 3⟩] "A"| ∧
    ((⟨"A", "A", 3, 0, 3, 3, 0, "new"⟩ : ChangeRow).type = "new" ∧
      (3 : ℚ) = 3 ∧ (0 : ℚ) = 0) := by
  have hrun : compare_holdings ["A"] [⟨"A", "A", 3⟩] [] (fun _ => 0) =
      Except.ok ([⟨"A", "A", 3, 0, 3, 3, 0, "new"⟩], true) := by
    simp +decide [compare_holdings, collectChanges, processCode, shareOf, lookupCode,
      expected_share, nameOf, classify, portfolio_return, keysOf]
    all_goals norm_num [sortByActive, List.insertionSort, List.orderedInsert, keyGe,
      abs_of_nonneg, abs_of_nonpos]
  refine ⟨hrun, by norm_num [shareOf, lookupCode], ?_⟩
  exact (c3_cold_start _ _ _ _ hrun).1 ⟨"A", "A", 3, 0, 3, 3, 0, "new"⟩ (by simp)

/-- C4: when 1 + R_p = 0 and some iterated security held a positive
weight yesterday, compare_holdings raises (the ZeroDivisionError model)
instead of returning rows. -/
theorem c4_denominator_raises (all_codes : List String) (t y : List Holding)
    (r : String → ℚ) (c : String) (hc : c ∈ all_codes)
    (hpos : shareOf y c > 0) (hden : 1 + portfolio_return y r = 0) :
    compare_holdings all_codes t y r = Except.error () := by
  have hp : processCode t y r (portfolio_return y r) c = Except.error () := by
    unfold processCode
    rw [if_pos ⟨hpos, hden⟩]
  unfold compare_holdings
  rw [collectChanges_error hc hp]

/-- C4 witness: a total wipeout return series. -/
theorem c4_witness :
    ("D" ∈ ["D"] ∧ shareOf [⟨"D", "D", 100⟩] "D" > 0 ∧
      1 + portfolio_return [⟨"D", "D", 100⟩] (fun _ => -1) = 0) ∧
    compare_holdings ["D"] [] [⟨"D", "D", 100⟩] (fun _ => -1) = Except.error () := by
  have h1 : ("D" : String) ∈ ["D"] := by simp
  have h2 : shareOf [⟨"D", "D", 100⟩] "D" > 0 := by norm_num [shareOf, lookupCode]
  have h3 : 1 + portfolio_return [⟨"D", "D", 100⟩] (fun _ => -1) = 0 := by
    norm_num [portfolio_return, keysOf, shareOf, lookupCode]
  exact ⟨⟨h1, h2, h3⟩, c4_denominator_raises ["D"] [] [⟨"D", "D", 100⟩] _ "D" h1 h2 h3⟩

/-- C5: the category of every surviving row is assigned by the first
matching rule of the source chain (old = 0 new, now = 0 sold,
active_diff > 0.15 buy, active_diff < -0.15 sell, else drift with a total
change of at least 0.5); and a security whose values match none of the
four explicit rules while abs(total_diff) < 0.5 is dropped entirely. -/
theorem c5_classification_order (all_codes : List String) (t y : List Holding)
    (r : String → ℚ) (res : List ChangeRow × Bool)
    (h : compare_holdings all_codes t y r = Except.ok res) :
    (∀ row ∈ res.1,
      row.type = (if row.old = 0 then "new" else if row.now = 0 then "sold"
        else if row.active_diff > 0.15 then "buy"
        else if row.active_diff < -0.15 then "sell" else "drift") ∧
      (row.old ≠ 0 → row.now ≠ 0 → ¬(row.active_diff > 0.15) →
        ¬(row.active_diff < -0.15) → ¬(|row.total_diff| < 0.5))) ∧
    (∀ c : String, shareOf y c ≠ 0 → shareOf t c ≠ 0 →
      ¬(shareOf t c - expected_share y r (portfolio_return y r) c > 0.15) →
      ¬(shareOf t c - expected_share y r (portfolio_return y r) c < -0.15) →
      |shareOf t c - shareOf y c| < 0.5 →
      ∀ row ∈ res.1, row.code ≠ c) := by
  constructor
  · intro row hrow
    obtain ⟨c, _, hpc⟩ := compare_holdings_row h hrow
    obtain ⟨_, _, _, _, _, _, _, hcl, _⟩ := processCode_ok_some hpc
    exact classify_eq_of_some hcl
  · intro c h1 h2 h3 h4 h5 row hrow hcode
    obtain ⟨c', _, hpc⟩ := compare_holdings_row h hrow
    obtain ⟨hc', _, hnow, hold, ht, ha, _, hcl, _⟩ := processCode_ok_some hpc
    have : c' = c := hc'.symm.trans hcode
    subst this
    rw [ha, ht, hnow, hold] at hcl
    rw [classify_eq_none h1 h2 h3 h4 h5] at hcl
    exact Option.noConfusion hcl

/-- C5 witness: a pure drift row survives as drift while a small mixed
change on another security is dropped at classification. -/
theorem c5_witness :
    compare_holdings ["A", "B"]
        [⟨"A", "A", 1100/101⟩, ⟨"B", "B", 19901/1010⟩]
        [⟨"A", "A", 10⟩, ⟨"B", "B", 20⟩]
        (fun c => if c = "A" then 1/10 else 0) =
      Except.ok ([⟨"A", "A", 1100/101, 10, 90/101, 0, 90/101, "drift"⟩], true) ∧
    (⟨"A", "A", 1100/101, 10, 90/101, 0, 90/101, "drift"⟩ : ChangeRow).type =
      (if (10 : ℚ) = 0 then "new" else if (1100/101 : ℚ) = 0 then "sold"
        else if (0 : ℚ) > 0.15 then "buy" else if (0 : ℚ) < -0.15 then "sell"
        else "drift") ∧
    ("A" : String) ≠ "B" := by
  have hrun : compare_holdings ["A", "B"]
      [⟨"A", "A", 1100/101⟩, ⟨"B", "B", 19901/1010⟩]
      [⟨"A", "A", 10⟩, ⟨"B", "B", 20⟩]
      (fun c => if c = "A" then 1/10 else 0) =
      Except.ok ([⟨"A", "A", 1100/101, 10, 90/101, 0, 90/101, "drift"⟩], true) := by
    simp +decide [compare_holdings, collectChanges, processCode, shareOf, lookupCode,
      expected_share, nameOf, classify, portfolio_return, keysOf]
    all_goals norm_num [sortByActive, List.insertionSort, List.orderedInsert, keyGe,
      abs_of_nonneg, abs_of_nonpos]
  refine ⟨hrun, ?_, ?_⟩
  · exact ((c5_classification_order _ _ _ _ _ hrun).1
      ⟨"A", "A", 1100/101, 10, 90/101, 0, 90/101, "drift"⟩ (by simp)).1
  · exact (c5_classification_order _ _ _ _ _ hrun).2 "B"
      (by norm_num [shareOf, lookupCode])
      (by norm_num [shareOf, lookupCode])
      (by
        simp +decide [shareOf, lookupCode, expected_share, portfolio_return, keysOf]
        all_goals norm_num)
      (by
        simp +decide [shareOf, lookupCode, expected_share, portfolio_return, keysOf]
        all_goals norm_num)
      (by
        simp +decide [shareOf, lookupCode]
        all_goals norm_num [abs_of_nonpos, abs_of_nonneg])
      ⟨"A", "A", 1100/101, 10, 90/101, 0, 90/101, "drift"⟩ (by simp)

/-- C6: a security of the iteration list is dropped by the noise filter,
before classification, exactly when abs(total_diff) < 0.1 and
abs(active_diff) < 0.2 both hold: under the condition no row for it ever
appears, and otherwise it reaches classification, so it appears whenever
the classification chain keeps it. -/
theorem c6_noise_filter (all_codes : List String) (t y : List Holding)
    (r : String → ℚ) (res : List ChangeRow × Bool)
    (h : compare_holdings all_codes t y r = Except.ok res) (c : String)
    (hc : c ∈ all_codes) :
    ((|shareOf t c - shareOf y c| < 0.1 ∧
      |shareOf t c - expected_share y r (portfolio_return y r) c| < 0.2) →
      ∀ row ∈ res.1, row.code ≠ c) ∧
    (¬(|shareOf t c - shareOf y c| < 0.1 ∧
      |shareOf t c - expected_share y r (portfolio_return y r) c| < 0.2) →
      classify (shareOf y c) (shareOf t c)
        (shareOf t c - expected_share y r (portfolio_return y r) c)
        (shareOf t c - shareOf y c) ≠ none →
      ∃ row ∈ res.1, row.code = c) := by
  constructor
  · intro hcond row hrow hcode
    obtain ⟨c', _, hpc⟩ := compare_holdings_row h hrow
    obtain ⟨hc', _, hnow, hold, ht, ha, _, _, hfil⟩ := processCode_ok_some hpc
    have : c' = c := hc'.symm.trans hcode
    subst this
    apply hfil
    rw [ht, ha, hnow, hold]
    exact hcond
  · intro hcond hcl
    obtain ⟨changes, hcoll, hres⟩ := compare_holdings_eq_ok h
    have hne := collectChanges_ok_no_error hcoll hc
    have hfirst : ¬(shareOf y c > 0 ∧ 1 + portfolio_return y r = 0) := by
      intro hx
      exact hne (by unfold processCode; rw [if_pos hx])
    cases hty : classify (shareOf y c) (shareOf t c)
        (shareOf t c - expected_share y r (portfolio_return y r) c)
        (shareOf t c - shareOf y c) with
    | none => exact absurd hty hcl
    | some ty =>
      have hps : processCode t y r (portfolio_return y r) c =
          Except.ok (some ⟨c, nameOf t y c, shareOf t c, shareOf y c,
            shareOf t c - shareOf y c,
            shareOf t c - expected_share y r (portfolio_return y r) c,
            (shareOf t c - shareOf y c) -
              (shareOf t c - expected_share y r (portfolio_return y r) c),
            ty⟩) := by
        unfold processCode
        rw [if_neg hfirst, if_neg hcond, hty]
      refine ⟨⟨c, nameOf t y c, shareOf t c, shareOf y c,
        shareOf t c - shareOf y c,
        shareOf t c - expected_share y r (portfolio_return y r) c,
        (shareOf t c - shareOf y c) -
          (shareOf t c - expected_share y r (portfolio_return y r) c),
        ty⟩, ?_, rfl⟩
      rw [hres]
      exact mem_sortByActive.mpr (collectChanges_mem_of hc hps hcoll)

/-- C6 witness: a sub-threshold change is filtered while a new position
survives. -/
theorem c6_witness :
    compare_holdings ["A", "B"] [⟨"A", "A", 201/20⟩, ⟨"B", "B", 5⟩] [⟨"A", "A", 10⟩]
        (fun _ => 0) = Except.ok ([⟨"B", "B", 5, 0, 5, 5, 0, "new"⟩], true) ∧
    (|shareOf [⟨"A", "A", 201/20⟩, ⟨"B", "B", 5⟩] "A" - shareOf [⟨"A", "A", 10⟩] "A"| < 0.1 ∧
      |shareOf [⟨"A", "A", 201/20⟩, ⟨"B", "B", 5⟩] "A" -
        expected_share [⟨"A", "A", 10⟩] (fun _ => 0)
          (portfolio_return [⟨"A", "A", 10⟩] (fun _ => 0)) "A"| < 0.2) ∧
    (⟨"B", "B", 5, 0, 5, 5, 0, "new"⟩ : ChangeRow).code ≠ "A" := by
  have hrun : compare_holdings ["A", "B"] [⟨"A", "A", 201/20⟩, ⟨"B", "B", 5⟩]
      [⟨"A", "A", 10⟩] (fun _ => 0) =
      Except.ok ([⟨"B", "B", 5, 0, 5, 5, 0, "new"⟩], true) := by
    simp +decide [compare_holdings, collectChanges, processCode, shareOf, lookupCode,
      expected_share, nameOf, classify, portfolio_return, keysOf]
    all_goals norm_num [sortByActive, List.insertionSort, List.orderedInsert, keyGe,
      abs_of_nonneg, abs_of_nonpos]
  have hcond : |shareOf [⟨"A", "A", 201/20⟩, ⟨"B", "B", 5⟩] "A" -
        shareOf [⟨"A", "A", 10⟩] "A"| < 0.1 ∧
      |shareOf [⟨"A", "A", 201/20⟩, ⟨"B", "B", 5⟩] "A" -
        expected_share [⟨"A", "A", 10⟩] (fun _ => 0)
          (portfolio_return [⟨"A", "A", 10⟩] (fun _ => 0)) "A"| < 0.2 := by
    simp +decide [shareOf, lookupCode, expected_share, portfolio_return, keysOf]
    all_goals norm_num [abs_of_nonneg, abs_of_nonpos]
  exact ⟨hrun, hcond,
    (c6_noise_filter _ _ _ _ _ hrun "A" (by simp)).1 hcond
      ⟨"B", "B", 5, 0, 5, 5, 0, "new"⟩ (by simp)⟩

/-- C7 counterexample: two rows tie on abs(active_diff), yet the engine
emits the larger code first when the union iteration happened to visit it
first: the sort key ignores the code, so ties are not broken by code
ascending. -/
theorem c7_counterexample :
    compare_holdings ["B", "A"] [⟨"B", "B", 5⟩, ⟨"A", "A", 5⟩] [] (fun _ => 0) =
      Except.ok ([⟨"B", "B", 5, 0, 5, 5, 0, "new"⟩,
        ⟨"A", "A", 5, 0, 5, 5, 0, "new"⟩], true) ∧
    |(⟨"B", "B", 5, 0, 5, 5, 0, "new"⟩ : ChangeRow).active_diff| =
      |(⟨"A", "A", 5, 0, 5, 5, 0, "new"⟩ : ChangeRow).active_diff| ∧
    ("A" : String) < "B" := by
  refine ⟨?_, rfl, ?_⟩
  · simp +decide [compare_holdings, collectChanges, processCode, shareOf, lookupCode,
      expected_share, nameOf, classify, portfolio_return, keysOf]
    all_goals norm_num [sortByActive, List.insertionSort, List.orderedInsert, keyGe,
      abs_of_nonneg, abs_of_nonpos]
  · rw [String.lt_iff_toList_lt]
    decide

/-- C7 amended: the output of compare_holdings is sorted by
abs(active_diff) descending; the relative order of tied rows is the
(unspecified) union iteration order, not the code order. -/
theorem c7_sorted_by_active (all_codes : List String) (t y : List Holding)
    (r : String → ℚ) (res : List ChangeRow × Bool)
    (h : compare_holdings all_codes t y r = Except.ok res) :
    res.1.Pairwise (fun a b => |b.active_diff| ≤ |a.active_diff|) := by
  obtain ⟨changes, _, hres⟩ := compare_holdings_eq_ok h
  rw [hres]
  exact List.sorted_insertionSort keyGe changes

/-- C7 amended witness: a run with two rows of distinct magnitudes. -/
theorem c7_sorted_witness :
    compare_holdings ["A", "B"] [⟨"A", "A", 4⟩, ⟨"B", "B", 2⟩] [] (fun _ => 0) =
      Except.ok ([⟨"A", "A", 4, 0, 4, 4, 0, "new"⟩,
        ⟨"B", "B", 2, 0, 2, 2, 0, "new"⟩], true) ∧
    List.Pairwise keyGe [(⟨"A", "A", 4, 0, 4, 4, 0, "new"⟩ : ChangeRow),
      ⟨"B", "B", 2, 0, 2, 2, 0, "new"⟩] := by
  have hrun : compare_holdings ["A", "B"] [⟨"A", "A", 4⟩, ⟨"B", "B", 2⟩] [] (fun _ => 0) =
      Except.ok ([⟨"A", "A", 4, 0, 4, 4, 0, "new"⟩,
        ⟨"B", "B", 2, 0, 2, 2, 0, "new"⟩], true) := by
    simp +decide [compare_holdings, collectChanges, processCode, shareOf, lookupCode,
      expected_share, nameOf, classify, portfolio_return, keysOf]
    all_goals norm_num [sortByActive, List.insertionSort, List.orderedInsert, keyGe,
      abs_of_nonneg, abs_of_nonpos]
  exact ⟨hrun, c7_sorted_by_active _ _ _ _ _ hrun⟩

/-- C8: the return lookup yields 0.0 on any fetch failure and whenever
fewer than two historical closes are available. -/
theorem c8_return_lookup_defaults (fetchCloses : String → Except String (List ℚ))
    (code : String) :
    (∀ e, fetchCloses (format_ticker_for_yf code) = Except.error e →
      get_daily_return fetchCloses code = 0) ∧
    (∀ closes, fetchCloses (format_ticker_for_yf code) = Except.ok closes →
      closes.length < 2 → get_daily_return fetchCloses code = 0) := by
  constructor
  · intro e he
    unfold get_daily_return
    rw [he]
  · intro closes hok hlen
    unfold get_daily_return
    rw [hok]
    rcases closes with _ | ⟨a, _ | ⟨b, tl⟩⟩
    · rfl
    · rfl
    · exfalso
      simp only [List.length_cons] at hlen
      omega

/-- C8 witness: a failing fetch and a one-row history both yield 0.0. -/
theorem c8_witness :
    get_daily_return (fun _ => Except.error "no data") "0700.HK" = 0 ∧
    ([(100 : ℚ)].length < 2 ∧ get_daily_return (fun _ => Except.ok [100]) "AAPL" = 0) := by
  constructor
  · exact (c8_return_lookup_defaults (fun _ => Except.error "no data") "0700.HK").1
      "no data" rfl
  · exact ⟨by norm_num,
      (c8_return_lookup_defaults (fun _ => Except.ok [100]) "AAPL").2 [100] rfl
        (by norm_num)⟩

/-- C9 counterexample: a corrupt history file makes load_history
propagate the parse failure instead of recovering an empty mapping. -/
theorem c9_counterexample :
    load_history (fun _ => Except.error ()) (some "corrupt") = Except.error () := rfl

/-- C9 amended: a missing history file is recovered as the empty mapping,
but a parse failure on an existing file propagates to the caller. -/
theorem c9_load_history (parseHistory : String → Except Unit History) (s : String) :
    load_history parseHistory none = Except.ok [] ∧
    (parseHistory s = Except.error () →
      load_history parseHistory (some s) = Except.error ()) :=
  ⟨rfl, fun hp => hp⟩

/-- C9 amended witness. -/
theorem c9_witness :
    load_history (fun _ => Except.error ()) none = Except.ok ([] : History) ∧
    load_history (fun _ => Except.error ()) (some "bad") = Except.error () :=
  ⟨(c9_load_history (fun _ => Except.error ()) "bad").1,
    (c9_load_history (fun _ => Except.error ()) "bad").2 rfl⟩
